import Mathlib

/-!
Verification of the IntelliGuard monitoring core against its specification.

The Python sources are shallowly embedded in Lean:
* machine floats are modelled as exact rationals (`ℚ`), except where the code
  takes a square root (`math.sqrt` in the stability analyzer), where reals are
  used;
* Python `round` (banker's rounding, round-half-to-even) is modelled by
  `pyRound` / `pyRoundTo`;
* Python exceptions are modelled by `Option` results (`none` = the call raised);
* JSON dictionaries become structures, absent keys become `Option` fields;
* Python `list.sort` (a stable sort) is modelled by `List.insertionSort`,
  which is stable and sorts with respect to the same key order.
-/

/-- Python `round(x)`: round half to even (banker's rounding).
`round(0.5) = 0`, `round(1.5) = 2`, `round(2.5) = 2`. -/
def pyRound {α : Type} [LinearOrderedField α] [FloorRing α] (x : α) : ℤ :=
  if Int.fract x < 1/2 then ⌊x⌋
  else if 1/2 < Int.fract x then ⌊x⌋ + 1
  else if ⌊x⌋ % 2 = 0 then ⌊x⌋ else ⌊x⌋ + 1

/-- Python `round(x, n)`: banker's rounding at the n-th decimal place
(exact-arithmetic model of the float operation). -/
def pyRoundTo {α : Type} [LinearOrderedField α] [FloorRing α] (n : ℕ) (x : α) : α :=
  (pyRound (x * (10 : α) ^ n) : α) / (10 : α) ^ n

theorem pyRound_nonneg {α : Type} [LinearOrderedField α] [FloorRing α]
    {x : α} (hx : 0 ≤ x) : 0 ≤ pyRound x := by
  have hfl : (0 : ℤ) ≤ ⌊x⌋ := Int.le_floor.mpr (by exact_mod_cast hx)
  unfold pyRound
  split
  · exact hfl
  · split
    · omega
    · split <;> omega

theorem pyRound_le_of_le {α : Type} [LinearOrderedField α] [FloorRing α]
    {x : α} {m : ℤ} (hx : x ≤ (m : α)) : pyRound x ≤ m := by
  have hfl : ⌊x⌋ ≤ m := by
    have h := Int.floor_mono hx
    simpa using h
  unfold pyRound
  split
  · exact hfl
  · rename_i h1
    have hfr : (1 : α)/2 ≤ Int.fract x := le_of_not_lt h1
    have hx0 : (0 : α) < Int.fract x := lt_of_lt_of_le (by norm_num) hfr
    -- x is not an integer here, so its floor is strictly below m
    have hlt : ⌊x⌋ < m := by
      rcases lt_or_eq_of_le hfl with h | h
      · exact h
      · exfalso
        have hfx : Int.fract x = x - (⌊x⌋ : α) := (Int.self_sub_floor x).symm
        rw [hfx, h] at hx0
        have : x - (m : α) ≤ 0 := by linarith
        linarith
    split
    · omega
    · split <;> omega

theorem pyRound_intCast {α : Type} [LinearOrderedField α] [FloorRing α]
    (m : ℤ) : pyRound (m : α) = m := by
  unfold pyRound
  rw [Int.fract_intCast, if_pos (by norm_num)]
  exact Int.floor_intCast m

/-! ## Battery wear predictor (`backend/analytics/battery_predictor.py`)

`BatteryHealthLogEntry` rows are persisted as JSON objects
`(date, design_mwh, full_mwh, wear_pct, cycle_count, voltage_mv)`.
Dates of the form `YYYY-MM-DD` are modelled by their day number (`ℤ`):
`strptime` is injective and monotone on this format, and both the
lexicographic sort key used by `append_daily_entry` and the day arithmetic
used by `predict` coincide with the integer order on day numbers. -/

namespace BatteryPredictor

structure HealthEntry where
  date : ℤ
  design_mwh : Option ℤ
  full_mwh : Option ℤ
  wear_pct : Option ℚ
  cycle_count : Option ℤ
  voltage_mv : Option ℤ
deriving DecidableEq, Repr

/-- Python truthiness of an optional integer field (`if e.get("design_mwh")`):
present and nonzero. -/
def truthyZ : Option ℤ → Bool
  | none => false
  | some v => v ≠ 0

/-- Lines 63-65: `wear = round((1.0 - full/design) * 100.0, 3)` computed when
`design_mwh and full_mwh and design_mwh > 0`, else `None`. -/
def computeWear (design full : Option ℤ) : Option ℚ :=
  if truthyZ design ∧ truthyZ full ∧ 0 < design.getD 0 then
    some (pyRoundTo 3 ((1 - (full.getD 0 : ℚ) / (design.getD 0 : ℚ)) * 100))
  else none

/-- Lines 67-74: the entry dictionary built by `append_daily_entry`. -/
def mkEntry (d : ℤ) (design full cycle volt : Option ℤ) : HealthEntry :=
  { date := d
    design_mwh := design
    full_mwh := full
    wear_pct := computeWear design full
    cycle_count := cycle
    voltage_mv := volt }

/-- Lines 56-61 and 76-78: the first entry whose date matches is replaced
(`existing.update(entry)` overwrites every field since `entry` carries all
keys); later duplicates are untouched. -/
def replaceFirst (d : ℤ) (entry : HealthEntry) : List HealthEntry → List HealthEntry
  | [] => []
  | e :: rest => if e.date = d then entry :: rest else e :: replaceFirst d entry rest

/-- Sort key of line 84: ascending by date. -/
def dateLE (a b : HealthEntry) : Prop := a.date ≤ b.date

instance : DecidableRel dateLE := fun a b => by
  unfold dateLE; infer_instance

instance : IsTotal HealthEntry dateLE :=
  ⟨fun a b => le_total a.date b.date⟩

instance : IsTrans HealthEntry dateLE :=
  ⟨fun _ _ _ hab hbc => le_trans hab hbc⟩

/-- Lines 49-89 of `battery_predictor.py`: `append_daily_entry`.
Upsert by date, then stable-sort ascending by date, then persist.
The returned list is the persisted log. -/
def appendDailyEntry (logs : List HealthEntry) (d : ℤ)
    (design full cycle volt : Option ℤ) : List HealthEntry :=
  let entry := mkEntry d design full cycle volt
  let logs' := if logs.any (fun e => e.date = d)
    then replaceFirst d entry logs
    else logs ++ [entry]
  List.insertionSort dateLE logs'

end BatteryPredictor

theorem pyRoundTo3_wear_example :
    pyRoundTo 3 ((1 - (45000 : ℚ) / 50000) * 100) = 10 := by
  have h : ((1 - (45000 : ℚ) / 50000) * 100) * (10 : ℚ) ^ 3 = ((10000 : ℤ) : ℚ) := by
    norm_num
  rw [pyRoundTo, h, pyRound_intCast]
  norm_num

theorem computeWear_50000_45000 :
    BatteryPredictor.computeWear (some 50000) (some 45000) = some 10 := by
  rw [BatteryPredictor.computeWear, if_pos (by simp [BatteryPredictor.truthyZ])]
  simpa using pyRoundTo3_wear_example

/-- C2: the spec asserts that `append_daily_entry` with design capacity
50000 mWh and full-charge capacity 45000 mWh stores a wear of
`round((1 - 45000/50000) * 100, 3) = 5.0`.  The formula in fact evaluates to
10.0: the persisted log after that call holds wear 10, not 5. -/
theorem append_daily_wear_not_five :
    ((BatteryPredictor.appendDailyEntry [] 0 (some 50000) (some 45000) none none).map
      (fun e => e.wear_pct)) = [some 10] ∧
    ((BatteryPredictor.appendDailyEntry [] 0 (some 50000) (some 45000) none none).map
      (fun e => e.wear_pct)) ≠ [some 5] := by
  have h : ((BatteryPredictor.appendDailyEntry [] 0 (some 50000) (some 45000) none none).map
      (fun e => e.wear_pct)) = [some 10] := by
    simp [BatteryPredictor.appendDailyEntry, BatteryPredictor.mkEntry,
      List.insertionSort, List.orderedInsert, computeWear_50000_45000]
  refine ⟨h, ?_⟩
  rw [h]
  norm_num

/-- C2 (amended): `append_daily_entry` with design capacity 50000 mWh and
full-charge capacity 45000 mWh stores a wear percentage equal to
`round((1 - 45000/50000) * 100, 3) = 10.0` exactly. -/
theorem append_daily_wear_value :
    ((BatteryPredictor.appendDailyEntry [] 0 (some 50000) (some 45000) none none).map
      (fun e => e.wear_pct)) = [some (pyRoundTo 3 ((1 - (45000 : ℚ) / 50000) * 100))] ∧
    pyRoundTo 3 ((1 - (45000 : ℚ) / 50000) * 100) = 10 := by
  constructor
  · simp [BatteryPredictor.appendDailyEntry, BatteryPredictor.mkEntry,
      List.insertionSort, List.orderedInsert, BatteryPredictor.computeWear,
      BatteryPredictor.truthyZ]
  · exact pyRoundTo3_wear_example

/-! ## Daily narrative aggregator (`backend/analytics/daily_story.py`)

The `generate` method consumes a day of aggregated samples and produces a
structured summary (the testable contract per the spec; the HTML narrative
string and the top-apps list are presentation only and are not modelled). -/

namespace DailyStory

structure Aggregated where
  cpu : List ℚ
  ram : List ℚ
  network_bytes : List ℚ

/-- `max(list)` for the guarded nonempty case; 0 when the guard fails,
matching the `else` branches of lines 16-18 and 25-27. -/
def listMax : List ℚ → ℚ
  | [] => 0
  | x :: xs => xs.foldl max x

/-- Lines 12-18: average CPU over the day, 0 when no samples. -/
def cpuAvg (a : Aggregated) : ℚ :=
  if a.cpu = [] then 0 else a.cpu.sum / a.cpu.length

/-- Lines 12-18: peak CPU over the day, 0 when no samples. -/
def cpuPeak (a : Aggregated) : ℚ := listMax a.cpu

/-- Lines 20-27: average RAM over the day, 0 when no samples. -/
def ramAvg (a : Aggregated) : ℚ :=
  if a.ram = [] then 0 else a.ram.sum / a.ram.length

/-- Lines 20-27: peak RAM over the day, 0 when no samples. -/
def ramPeak (a : Aggregated) : ℚ := listMax a.ram

/-- Line 30: `net_total = sum(net_list) / 1024 / 1024` (MB). -/
def netTotalMB (a : Aggregated) : ℚ := a.network_bytes.sum / 1024 / 1024

/-- Lines 37-44: the health score starts at 100 and is reduced by the three
fixed penalties. -/
def healthScore (a : Aggregated) : ℤ :=
  100 - (if 70 < cpuAvg a ∨ 70 < ramAvg a then 20 else 0)
      - (if 90 < cpuPeak a ∨ 90 < ramPeak a then 20 else 0)
      - (if 2000 < netTotalMB a then 10 else 0)

/-- The three verdict messages of lines 46-52. -/
inductive Verdict where
  | smooth
  | cleanup
  | warning
deriving DecidableEq, Repr

/-- Lines 46-52: verdict banding on the health score. -/
def verdict (a : Aggregated) : Verdict :=
  if 80 < healthScore a then .smooth
  else if 60 < healthScore a then .cleanup
  else .warning

/-- Lines 79-89: the structured summary returned next to the narrative. -/
structure Summary where
  cpu_avg : ℚ
  cpu_peak : ℚ
  ram_avg : ℚ
  ram_peak : ℚ
  net_total_mb : ℚ
  health_score : ℤ
  verdict : Verdict

/-- Lines 5-89 of `daily_story.py`: `DailyStory.generate`, restricted to the
structured summary. -/
def generate (a : Aggregated) : Summary :=
  { cpu_avg := cpuAvg a
    cpu_peak := cpuPeak a
    ram_avg := ramAvg a
    ram_peak := ramPeak a
    net_total_mb := netTotalMB a
    health_score := healthScore a
    verdict := verdict a }

end DailyStory

/-- C9: for any aggregated day whose cpu average is 75, cpu peak is 95 and
total network volume is 2500 MB, the daily health score is
100 - 20 - 20 - 10 = 50, and 50 is not above 60, so the verdict is the
warning message. -/
theorem daily_story_health_50_warning (a : DailyStory.Aggregated)
    (h1 : DailyStory.cpuAvg a = 75) (h2 : DailyStory.cpuPeak a = 95)
    (h3 : DailyStory.netTotalMB a = 2500) :
    (DailyStory.generate a).health_score = 50 ∧
    (DailyStory.generate a).verdict = DailyStory.Verdict.warning := by
  have hs : DailyStory.healthScore a = 50 := by
    rw [DailyStory.healthScore, h1, h2, h3]
    rw [if_pos (Or.inl (by norm_num)), if_pos (Or.inl (by norm_num)),
      if_pos (by norm_num)]
    norm_num
  have hv : DailyStory.verdict a = DailyStory.Verdict.warning := by
    rw [DailyStory.verdict, hs]
    norm_num
  exact ⟨by simpa [DailyStory.generate] using hs, by simpa [DailyStory.generate] using hv⟩

/-- Witness for C9 at a concrete day: cpu samples 55 and 95 (average 75,
peak 95) and one network sample of 2621440000 bytes (2500 MB). -/
theorem daily_story_health_50_warning_witness :
    (DailyStory.generate ⟨[55, 95], [], [2621440000]⟩).health_score = 50 ∧
    (DailyStory.generate ⟨[55, 95], [], [2621440000]⟩).verdict =
      DailyStory.Verdict.warning := by
  refine daily_story_health_50_warning _ ?_ ?_ ?_
  · show (if ([55, 95] : List ℚ) = [] then 0
      else ([55, 95] : List ℚ).sum / (([55, 95] : List ℚ).length : ℚ)) = 75
    rw [if_neg (by simp)]
    norm_num
  · show ([(95 : ℚ)].foldl max 55) = 95
    norm_num
  · show ([(2621440000 : ℚ)].sum) / 1024 / 1024 = 2500
    norm_num

/-- C10: the daily health score can never go below 50 (in particular it is
never negative): the only deductions from 100 are one -20, one -20 and one
-10, so a floor clamp is unnecessary. -/
theorem daily_story_health_score_at_least_50 (a : DailyStory.Aggregated) :
    50 ≤ (DailyStory.generate a).health_score ∧
    (DailyStory.generate a).health_score ≤ 100 := by
  show 50 ≤ DailyStory.healthScore a ∧ DailyStory.healthScore a ≤ 100
  rw [DailyStory.healthScore]
  split_ifs <;> omega

/-! ## System monitor (`backend/monitors/system_monitor.py`)

`SystemMonitor.sample` reads one cpu and one ram percentage per tick.  Per
metric it (a) appends to a bounded history, (b) tracks the running peak with
its timestamp, and (c) updates a consecutive-hit counter and fires an alert
whenever the counter is at or above `config.CONSECUTIVE_LIMIT` (= 5).  CPU
and RAM are treated identically, so the model takes the reading sequence of
one metric. -/

namespace SystemMonitor

/-- Lines 43-52: one update of the consecutive-hit counter — a reading
strictly above the threshold increments, any other reading resets to 0. -/
def hitsStep (threshold : ℚ) (hits : ℕ) (r : ℚ) : ℕ :=
  if threshold < r then hits + 1 else 0

/-- The counter after feeding the readings in order, from the initial 0 of
`__init__` (lines 12-13). -/
def hitsAfter (threshold : ℚ) (rs : List ℚ) : ℕ :=
  rs.foldl (hitsStep threshold) 0

/-- Lines 54-60: the alert is emitted on a tick iff the counter is at or
above the consecutive limit (the counter is not reset by firing). -/
def alertFires (limit hits : ℕ) : Bool := limit ≤ hits

/-- Lines 33-41: peak tracking — the stored (peak, peakTime) pair is replaced
only when the new value is strictly greater. -/
def peakStep (p : ℚ × Option ℚ) (push : ℚ × ℚ) : ℚ × Option ℚ :=
  if p.1 < push.2 then (push.2, some push.1) else p

/-- The peak state after a sequence of (timestamp, value) pushes, from the
initial `peak = 0`, `peak_time = None` of lines 16-19. -/
def peakAfter (pushes : List (ℚ × ℚ)) : ℚ × Option ℚ :=
  pushes.foldl peakStep (0, none)

theorem hitsAfter_append (threshold : ℚ) (rs : List ℚ) (r : ℚ) :
    hitsAfter threshold (rs ++ [r]) = hitsStep threshold (hitsAfter threshold rs) r := by
  unfold hitsAfter
  rw [List.foldl_append]
  rfl

theorem hits_foldl_all_above {threshold : ℚ} {rs : List ℚ}
    (h : ∀ r ∈ rs, threshold < r) (c : ℕ) :
    rs.foldl (hitsStep threshold) c = c + rs.length := by
  induction rs generalizing c with
  | nil => simp
  | cons x xs ih =>
    have hx : threshold < x := h x (List.mem_cons_self x xs)
    have hxs : ∀ r ∈ xs, threshold < r := fun r hr => h r (List.mem_cons_of_mem x hr)
    simp only [List.foldl_cons, hitsStep, if_pos hx, ih hxs, List.length_cons]
    omega

theorem peakStep_fst (s : ℚ × Option ℚ) (p : ℚ × ℚ) :
    (peakStep s p).1 = max s.1 p.2 := by
  unfold peakStep
  split
  · rename_i h
    exact (max_eq_right (le_of_lt h)).symm
  · rename_i h
    exact (max_eq_left (le_of_not_lt h)).symm

theorem peak_fst_eq_foldl_max (s : ℚ × Option ℚ) (l : List (ℚ × ℚ)) :
    (l.foldl peakStep s).1 = (l.map (fun p => p.2)).foldl max s.1 := by
  induction l generalizing s with
  | nil => rfl
  | cons x xs ih =>
    simp only [List.foldl_cons, List.map_cons, ih, peakStep_fst]

theorem le_foldl_max (c : ℚ) (l : List ℚ) : c ≤ l.foldl max c := by
  induction l generalizing c with
  | nil => exact le_refl c
  | cons x xs ih => exact le_trans (le_max_left c x) (ih (max c x))

theorem mem_le_foldl_max {l : List ℚ} {y : ℚ} (hy : y ∈ l) (c : ℚ) :
    y ≤ l.foldl max c := by
  induction l generalizing c with
  | nil => cases hy
  | cons x xs ih =>
    rcases List.mem_cons.mp hy with h | h
    · subst h
      exact le_trans (le_max_right c y) (le_foldl_max _ _)
    · exact ih h (max c x)

theorem foldl_max_mem (c : ℚ) (l : List ℚ) : l.foldl max c ∈ c :: l := by
  induction l generalizing c with
  | nil => simp
  | cons x xs ih =>
    simp only [List.foldl_cons]
    have h := ih (max c x)
    rcases List.mem_cons.mp h with h | h
    · rcases max_choice c x with hm | hm
      · rw [h, hm]
        exact List.mem_cons_self _ _
      · rw [h, hm]
        exact List.mem_cons_of_mem _ (List.mem_cons_self _ _)
    · exact List.mem_cons_of_mem _ (List.mem_cons_of_mem _ h)

theorem peak_fst_le_foldl (s : ℚ × Option ℚ) (l : List (ℚ × ℚ)) :
    s.1 ≤ (l.foldl peakStep s).1 := by
  rw [peak_fst_eq_foldl_max]
  exact le_foldl_max _ _

end SystemMonitor

/-- C1: the per-metric alert counter.  A reading strictly above the threshold
increments the counter, a reading at or below it resets the counter to 0, and
an alert fires on every reading at which the counter is at or above the limit
(5): on an all-above-threshold run the alert fires exactly from the 5th
reading onwards. -/
theorem alert_counter_spec (threshold : ℚ) (rs : List ℚ) (i : ℕ)
    (hi : i < rs.length) :
    (threshold < rs.get ⟨i, hi⟩ →
      SystemMonitor.hitsAfter threshold (rs.take (i+1)) =
        SystemMonitor.hitsAfter threshold (rs.take i) + 1) ∧
    (rs.get ⟨i, hi⟩ ≤ threshold →
      SystemMonitor.hitsAfter threshold (rs.take (i+1)) = 0) ∧
    (SystemMonitor.alertFires 5 (SystemMonitor.hitsAfter threshold (rs.take (i+1))) = true ↔
      5 ≤ SystemMonitor.hitsAfter threshold (rs.take (i+1))) ∧
    ((∀ r ∈ rs, threshold < r) →
      (SystemMonitor.alertFires 5
        (SystemMonitor.hitsAfter threshold (rs.take (i+1))) = true ↔ 5 ≤ i + 1)) := by
  have htake : rs.take (i+1) = rs.take i ++ [rs.get ⟨i, hi⟩] := by
    rw [List.take_succ, List.getElem?_eq_getElem hi]
    simp
  refine ⟨?_, ?_, ?_, ?_⟩
  · intro h
    rw [htake, SystemMonitor.hitsAfter_append, SystemMonitor.hitsStep, if_pos h]
  · intro h
    rw [htake, SystemMonitor.hitsAfter_append, SystemMonitor.hitsStep,
      if_neg (not_lt.mpr h)]
  · simp [SystemMonitor.alertFires]
  · intro hall
    have hmem : ∀ r ∈ rs.take (i+1), threshold < r := fun r hr =>
      hall r (List.mem_of_mem_take hr)
    have hlen : (rs.take (i+1)).length = i + 1 := by
      rw [List.length_take]
      omega
    rw [SystemMonitor.hitsAfter, SystemMonitor.hits_foldl_all_above hmem 0, hlen]
    simp [SystemMonitor.alertFires]

/-- Witness for C1: threshold 85 (the configured CPU threshold), six readings
of 90; after the 5th reading the alert fires. -/
theorem alert_counter_spec_witness :
    SystemMonitor.alertFires 5
      (SystemMonitor.hitsAfter 85 (([90, 90, 90, 90, 90, 90] : List ℚ).take 5)) = true := by
  have h := alert_counter_spec 85 ([90, 90, 90, 90, 90, 90] : List ℚ) 4 (by norm_num)
  have h4 := h.2.2.2 (by intro r hr; fin_cases hr <;> norm_num)
  exact h4.mpr (by norm_num)

/-- C8: the stored peak of a history tracker is monotonically non-decreasing
from push to push, and — for the non-negative percentage values the monitors
push — after any nonempty sequence of pushes it equals the maximum value ever
pushed (it is a pushed value and an upper bound of all pushed values). -/
theorem peak_monotone_and_is_max (pushes : List (ℚ × ℚ)) :
    (∀ i j, i ≤ j →
      (SystemMonitor.peakAfter (pushes.take i)).1 ≤
        (SystemMonitor.peakAfter (pushes.take j)).1) ∧
    ((∀ p ∈ pushes, 0 ≤ p.2) → pushes ≠ [] →
      ((SystemMonitor.peakAfter pushes).1 ∈ pushes.map (fun p => p.2) ∧
       ∀ p ∈ pushes, p.2 ≤ (SystemMonitor.peakAfter pushes).1)) := by
  constructor
  · intro i j hij
    have hsplit : pushes.take j = pushes.take i ++ ((pushes.drop i).take (j - i)) := by
      rw [← List.take_add]
      congr 1
      omega
    unfold SystemMonitor.peakAfter
    rw [hsplit, List.foldl_append]
    exact SystemMonitor.peak_fst_le_foldl _ _
  · intro hpos hne
    have hfst : (SystemMonitor.peakAfter pushes).1 =
        (pushes.map (fun p => p.2)).foldl max 0 :=
      SystemMonitor.peak_fst_eq_foldl_max (0, none) pushes
    constructor
    · rw [hfst]
      have hmem := SystemMonitor.foldl_max_mem 0 (pushes.map (fun p => p.2))
      rcases List.mem_cons.mp hmem with h0 | h0
      · -- the fold stayed at the initial 0: some pushed value must equal 0,
        -- since the head of the value list is between 0 and the fold result
        rcases pushes with _ | ⟨q, qs⟩
        · exact absurd rfl hne
        · have hq : (0 : ℚ) ≤ q.2 := hpos q (List.mem_cons_self q qs)
          have hup : q.2 ≤ (List.map (fun p => p.2) (q :: qs)).foldl max 0 :=
            SystemMonitor.mem_le_foldl_max (by simp) 0
          rw [h0] at hup
          have : q.2 = 0 := le_antisymm hup hq
          rw [h0, ← this]
          simp
      · exact h0
    · intro p hp
      rw [hfst]
      exact SystemMonitor.mem_le_foldl_max (List.mem_map_of_mem _ hp) 0

/-- Witness for C8: three pushes with values 30, 70, 50 — the peak is 70, a
pushed value and an upper bound. -/
theorem peak_monotone_and_is_max_witness :
    (SystemMonitor.peakAfter ([(1, 30), (2, 70), (3, 50)] : List (ℚ × ℚ))).1 ∈
      (([(1, 30), (2, 70), (3, 50)] : List (ℚ × ℚ)).map (fun p => p.2)) ∧
    ∀ p ∈ ([(1, 30), (2, 70), (3, 50)] : List (ℚ × ℚ)),
      p.2 ≤ (SystemMonitor.peakAfter ([(1, 30), (2, 70), (3, 50)] : List (ℚ × ℚ))).1 := by
  exact (peak_monotone_and_is_max _).2
    (by intro p hp; fin_cases hp <;> norm_num)
    (by simp)

/-! ## Upsert behaviour of `append_daily_entry` (C3)

The battery health log's data model declares the calendar date a unique key.
`dNodup` is that invariant; `append_daily_entry` preserves it, and under it a
repeated write for one date is an upsert. -/

namespace BatteryPredictor

/-- The store invariant: at most one entry per date. -/
def dNodup (logs : List HealthEntry) : Prop :=
  (logs.map (fun e => e.date)).Nodup

theorem replaceFirst_map_date {d : ℤ} {entry : HealthEntry}
    (hdate : entry.date = d) (l : List HealthEntry) :
    (replaceFirst d entry l).map (fun e => e.date) = l.map (fun e => e.date) := by
  induction l with
  | nil => rfl
  | cons e rest ih =>
    rw [replaceFirst]
    split
    · rename_i h
      simp [hdate, h]
    · simp [ih]

theorem filter_date_eq_nil {d : ℤ} {l : List HealthEntry}
    (h : ∀ x ∈ l, x.date ≠ d) :
    l.filter (fun x => x.date = d) = [] := by
  rw [List.filter_eq_nil_iff]
  intro a ha
  simp [h a ha]

theorem replaceFirst_filter {d : ℤ} {entry : HealthEntry}
    (hdate : entry.date = d) :
    ∀ l : List HealthEntry, dNodup l → (l.any (fun e => e.date = d) = true) →
      (replaceFirst d entry l).filter (fun x => x.date = d) = [entry]
  | [], _, hany => by simp at hany
  | e :: rest, hnd, hany => by
    rw [replaceFirst]
    by_cases h : e.date = d
    · rw [if_pos h]
      have hrest : ∀ x ∈ rest, x.date ≠ d := by
        intro x hx hxd
        have hnd' : e.date ∉ rest.map (fun e => e.date) := by
          have := hnd
          rw [dNodup, List.map_cons, List.nodup_cons] at this
          exact this.1
        exact hnd' (by rw [h, ← hxd]; exact List.mem_map_of_mem _ hx)
      rw [List.filter_cons, if_pos (by simp [hdate]), filter_date_eq_nil hrest]
    · rw [if_neg h]
      have hany' : rest.any (fun e => e.date = d) = true := by
        rcases List.any_eq_true.mp hany with ⟨x, hx, hxd⟩
        rcases List.mem_cons.mp hx with rfl | hx'
        · exact absurd (of_decide_eq_true hxd) h
        · exact List.any_eq_true.mpr ⟨x, hx', hxd⟩
      have hnd' : dNodup rest := by
        have := hnd
        rw [dNodup, List.map_cons, List.nodup_cons] at this
        exact this.2
      rw [List.filter_cons, if_neg (by simp [h]),
        replaceFirst_filter hdate rest hnd' hany']

theorem appendDailyEntry_filter {logs : List HealthEntry} {d : ℤ}
    (design full cycle volt : Option ℤ) (hnd : dNodup logs) :
    (appendDailyEntry logs d design full cycle volt).filter (fun x => x.date = d) =
      [mkEntry d design full cycle volt] := by
  set entry := mkEntry d design full cycle volt with hentry
  have hdate : entry.date = d := rfl
  have hperm : List.Perm (appendDailyEntry logs d design full cycle volt)
      (if logs.any (fun e => e.date = d) then replaceFirst d entry logs
       else logs ++ [entry]) := by
    rw [appendDailyEntry]
    exact List.perm_insertionSort dateLE _
  have hfilter : ((if logs.any (fun e => e.date = d) then replaceFirst d entry logs
       else logs ++ [entry]).filter (fun x => x.date = d)) = [entry] := by
    split
    · rename_i hany
      exact replaceFirst_filter hdate logs hnd hany
    · rename_i hany
      have hnone : ∀ x ∈ logs, x.date ≠ d := by
        intro x hx hxd
        exact hany (List.any_eq_true.mpr ⟨x, hx, by simp [hxd]⟩)
      rw [List.filter_append, filter_date_eq_nil hnone]
      simp [hdate]
  have := (hperm.filter (fun x => x.date = d)).trans (by rw [hfilter])
  exact List.perm_singleton.mp this

theorem appendDailyEntry_dNodup {logs : List HealthEntry} {d : ℤ}
    (design full cycle volt : Option ℤ) (hnd : dNodup logs) :
    dNodup (appendDailyEntry logs d design full cycle volt) := by
  set entry := mkEntry d design full cycle volt with hentry
  have hdate : entry.date = d := rfl
  have hperm : List.Perm (appendDailyEntry logs d design full cycle volt)
      (if logs.any (fun e => e.date = d) then replaceFirst d entry logs
       else logs ++ [entry]) := by
    rw [appendDailyEntry]
    exact List.perm_insertionSort dateLE _
  have hnd' : dNodup (if logs.any (fun e => e.date = d) then replaceFirst d entry logs
       else logs ++ [entry]) := by
    split
    · rw [dNodup, replaceFirst_map_date hdate]
      exact hnd
    · rename_i hany
      have hnone : d ∉ logs.map (fun e => e.date) := by
        intro hmem
        rcases List.mem_map.mp hmem with ⟨x, hx, hxd⟩
        exact hany (List.any_eq_true.mpr ⟨x, hx, by simp [hxd]⟩)
      rw [dNodup, List.map_append]
      simp only [List.map_cons, List.map_nil, hdate]
      rw [List.nodup_append]
      exact ⟨hnd, List.nodup_singleton d, by simpa using hnone⟩
  rw [dNodup] at hnd' ⊢
  exact ((hperm.map (fun e => e.date)).nodup_iff).mpr hnd'

theorem appendDailyEntry_sorted (logs : List HealthEntry) (d : ℤ)
    (design full cycle volt : Option ℤ) :
    List.Sorted dateLE (appendDailyEntry logs d design full cycle volt) := by
  rw [appendDailyEntry]
  exact List.sorted_insertionSort dateLE _

end BatteryPredictor

/-- C3: upsert semantics of `append_daily_entry`.  On any prior log state
satisfying the data model's unique-date key (at most one entry per date, the
invariant the call itself preserves), calling `append_daily_entry` twice for
the same date leaves exactly one entry for that date, holding the second
call's values; the log is sorted ascending by date after every call, and the
unique-date invariant still holds. -/
theorem append_daily_entry_upsert (logs : List BatteryPredictor.HealthEntry)
    (d : ℤ) (dz1 f1 c1 v1 dz2 f2 c2 v2 : Option ℤ)
    (hnd : BatteryPredictor.dNodup logs) :
    (BatteryPredictor.appendDailyEntry
        (BatteryPredictor.appendDailyEntry logs d dz1 f1 c1 v1) d dz2 f2 c2 v2).filter
      (fun x => x.date = d) = [BatteryPredictor.mkEntry d dz2 f2 c2 v2] ∧
    List.Sorted BatteryPredictor.dateLE
      (BatteryPredictor.appendDailyEntry logs d dz1 f1 c1 v1) ∧
    List.Sorted BatteryPredictor.dateLE
      (BatteryPredictor.appendDailyEntry
        (BatteryPredictor.appendDailyEntry logs d dz1 f1 c1 v1) d dz2 f2 c2 v2) ∧
    BatteryPredictor.dNodup
      (BatteryPredictor.appendDailyEntry
        (BatteryPredictor.appendDailyEntry logs d dz1 f1 c1 v1) d dz2 f2 c2 v2) := by
  have hnd1 : BatteryPredictor.dNodup
      (BatteryPredictor.appendDailyEntry logs d dz1 f1 c1 v1) :=
    BatteryPredictor.appendDailyEntry_dNodup dz1 f1 c1 v1 hnd
  exact ⟨BatteryPredictor.appendDailyEntry_filter dz2 f2 c2 v2 hnd1,
    BatteryPredictor.appendDailyEntry_sorted logs d dz1 f1 c1 v1,
    BatteryPredictor.appendDailyEntry_sorted _ d dz2 f2 c2 v2,
    BatteryPredictor.appendDailyEntry_dNodup dz2 f2 c2 v2 hnd1⟩

/-- Witness for C3: starting from a log holding one entry for date 1,
upserting date 5 twice (capacities 50000/48000, then 50000/45000) leaves one
date-5 entry with the second call's values, in a sorted unique-date log. -/
theorem append_daily_entry_upsert_witness :
    (BatteryPredictor.appendDailyEntry
        (BatteryPredictor.appendDailyEntry
          [BatteryPredictor.mkEntry 1 (some 50000) (some 49000) none none]
          5 (some 50000) (some 48000) none none) 5 (some 50000) (some 45000) none none).filter
      (fun x => x.date = 5) = [BatteryPredictor.mkEntry 5 (some 50000) (some 45000) none none] ∧
    BatteryPredictor.dNodup
      (BatteryPredictor.appendDailyEntry
        (BatteryPredictor.appendDailyEntry
          [BatteryPredictor.mkEntry 1 (some 50000) (some 49000) none none]
          5 (some 50000) (some 48000) none none) 5 (some 50000) (some 45000) none none) := by
  have h := append_daily_entry_upsert
    [BatteryPredictor.mkEntry 1 (some 50000) (some 49000) none none] 5
    (some 50000) (some 48000) none none (some 50000) (some 45000) none none
    (by rw [BatteryPredictor.dNodup]; simp)
  exact ⟨h.1, h.2.2.2⟩

/-! ## Trend fitting and projection: `BatteryPredictor.predict`

Lines 91-207 of `battery_predictor.py`.  The numpy and the manual branch of
the fit compute the same ordinary-least-squares line; the model uses the
closed form of lines 148-156.  The result's note strings are abstracted by
`PredictNote`; `none` for the whole result models an uncaught exception
(`entries[0]` on an empty qualifying list, possible only for
`min_points = 0`). -/

namespace BatteryPredictor

/-- Line 104: an entry qualifies for the fit when it has a wear value and a
truthy design capacity. -/
def qualifies (e : HealthEntry) : Bool :=
  e.wear_pct.isSome && truthyZ e.design_mwh

/-- Lines 115-124: x values — days between each qualifying entry and the
first qualifying entry. -/
def xsOf : List HealthEntry → List ℚ
  | [] => []
  | e0 :: rest => (e0 :: rest).map (fun e => ((e.date - e0.date : ℤ) : ℚ))

/-- Lines 115-124: y values — the wear percentages (present on every
qualifying entry; 0 is a dummy default). -/
def ysOf (es : List HealthEntry) : List ℚ :=
  es.map (fun e => e.wear_pct.getD 0)

/-- Line 153: `n * sxx - sx * sx`. -/
def olsDenom (xs : List ℚ) : ℚ :=
  (xs.length : ℚ) * (xs.map (fun x => x * x)).sum - xs.sum * xs.sum

/-- Line 155: `(n * sxy - sx * sy) / denom`. -/
def olsSlope (xs ys : List ℚ) : ℚ :=
  ((xs.length : ℚ) * ((xs.zip ys).map (fun p => p.1 * p.2)).sum - xs.sum * ys.sum) /
    olsDenom xs

/-- Line 156: `(sy - slope * sx) / n`. -/
def olsIntercept (xs ys : List ℚ) : ℚ :=
  (ys.sum - olsSlope xs ys * xs.sum) / (xs.length : ℚ)

/-- Line 116: the date of `entries[0]`. -/
def firstDate : List HealthEntry → ℤ
  | [] => 0
  | e :: _ => e.date

/-- Line 179: `entries[-1]` (the branch is reached only on a nonempty list, so
the dummy default is never used). -/
def lastEntryD (es : List HealthEntry) : HealthEntry :=
  es.getLastD ⟨0, none, none, none, none, none⟩

/-- Line 180: the design capacity of the latest qualifying entry. -/
def designOf (es : List HealthEntry) : Option ℤ :=
  (lastEntryD es).design_mwh

/-- Line 176: projected wear `slope * ((now - first).days + months*30.4375) +
intercept`. -/
def projWear (es : List HealthEntry) (now : ℤ) (months : ℚ) : ℚ :=
  olsSlope (xsOf es) (ysOf es) *
      (((now - firstDate es : ℤ) : ℚ) + months * (30.4375 : ℚ)) +
    olsIntercept (xsOf es) (ysOf es)

/-- Lines 183-184: `projected_full = design * (1 - wear/100)` and
`projected_health = max(0, min(100, projected_full / design * 100))`. -/
def projHealth (es : List HealthEntry) (now : ℤ) (months : ℚ) : ℚ :=
  max 0 (min 100
    (((designOf es).getD 0 : ℚ) * (1 - projWear es now months / 100) /
        ((designOf es).getD 0 : ℚ) * 100))

/-- The note strings of `predict`, abstracted: which branch produced the
result and the numbers interpolated into the message. -/
inductive PredictNote where
  | needSamples (required found : ℕ)
  | insufficientParsed
  | fitFailed
  | computed (slope weekly : ℚ)
deriving DecidableEq, Repr

/-- The result dictionary of `predict` (lines 106-113, 128-136, 160-168,
200-207). -/
structure PredictResult where
  weekly_degradation_percent : Option ℚ
  projected_health_percent : Option ℚ
  health_score : Option ℤ
  trend_slope_wear_per_day : Option ℚ
  notes : PredictNote
  entries : List HealthEntry
deriving DecidableEq, Repr

/-- Lines 91-207: `predict(months_ahead)`.  `now` is the current day number
(`datetime.datetime.now()`); `none` models an uncaught exception. -/
def predict (minPoints : ℕ) (logs : List HealthEntry) (now : ℤ) (months : ℚ) :
    Option PredictResult :=
  let entries := logs.filter qualifies
  if entries.length < minPoints then
    some ⟨none, none, none, none, .needSamples minPoints entries.length, logs⟩
  else if entries = [] then
    none
  else
    let xs := xsOf entries
    let ys := ysOf entries
    if xs.length < minPoints then
      some ⟨none, none, none, none, .insufficientParsed, logs⟩
    else if olsDenom xs = 0 then
      some ⟨none, none, none, none, .fitFailed, logs⟩
    else
      let slope := olsSlope xs ys
      let weekly := slope * 7
      if truthyZ (designOf entries) then
        some ⟨some (pyRoundTo 6 weekly), some (pyRoundTo 2 (projHealth entries now months)),
          some (pyRound (projHealth entries now months)), some (pyRoundTo 8 slope),
          .computed slope weekly, logs⟩
      else
        some ⟨some (pyRoundTo 6 weekly), none, none, some (pyRoundTo 8 slope),
          .computed slope weekly, logs⟩

theorem xsOf_length (es : List HealthEntry) : (xsOf es).length = es.length := by
  cases es with
  | nil => rfl
  | cons e0 rest => simp [xsOf]

end BatteryPredictor

/-- C7: with fewer than `min_points` qualifying entries, `predict` returns a
normal result (not an exception) whose numeric fields are all absent, whose
note states the required and found counts, and which carries the raw log. -/
theorem predict_insufficient (minPoints : ℕ)
    (logs : List BatteryPredictor.HealthEntry) (now : ℤ) (months : ℚ)
    (h : (logs.filter BatteryPredictor.qualifies).length < minPoints) :
    BatteryPredictor.predict minPoints logs now months =
      some ⟨none, none, none, none,
        BatteryPredictor.PredictNote.needSamples minPoints
          (logs.filter BatteryPredictor.qualifies).length, logs⟩ := by
  simp only [BatteryPredictor.predict]
  rw [if_pos h]

/-- Witness for C7: a log with one qualifying entry and `min_points = 3`
yields the all-absent result with a required-3-found-1 note. -/
theorem predict_insufficient_witness :
    BatteryPredictor.predict 3
      [BatteryPredictor.mkEntry 1 (some 50000) (some 48000) none none] 0 6 =
      some ⟨none, none, none, none, BatteryPredictor.PredictNote.needSamples 3 1,
        [BatteryPredictor.mkEntry 1 (some 50000) (some 48000) none none]⟩ := by
  have hlen : (([BatteryPredictor.mkEntry 1 (some 50000) (some 48000) none none] :
      List BatteryPredictor.HealthEntry).filter BatteryPredictor.qualifies).length = 1 := by
    decide
  have h := predict_insufficient 3
    [BatteryPredictor.mkEntry 1 (some 50000) (some 48000) none none] 0 6
    (by rw [hlen]; norm_num)
  rw [h, hlen]

theorem qualifies_mkEntry (d dz f : ℤ) (c v : Option ℤ) (hdz : 0 < dz) (hf : f ≠ 0) :
    BatteryPredictor.qualifies (BatteryPredictor.mkEntry d (some dz) (some f) c v) = true := by
  have hw : (BatteryPredictor.computeWear (some dz) (some f)).isSome = true := by
    rw [BatteryPredictor.computeWear, if_pos]
    · rfl
    · refine ⟨?_, ?_, ?_⟩
      · simp only [BatteryPredictor.truthyZ]
        simpa using hdz.ne'
      · simp only [BatteryPredictor.truthyZ]
        simpa using hf
      · simpa using hdz
  rw [BatteryPredictor.qualifies, BatteryPredictor.mkEntry]
  simp only [BatteryPredictor.truthyZ, Bool.and_eq_true]
  refine ⟨hw, by simpa using hdz.ne'⟩

/-- C6: with at least `min_points` qualifying entries, `predict` fits the
ordinary-least-squares line over x = days since the first qualifying entry
and y = wear: when the closed-form denominator `n * sum(x^2) - (sum x)^2` is
zero the fit fails and every numeric field is absent; otherwise the returned
slope is the closed-form slope (rounded to 8 decimals for presentation), the
weekly degradation is slope * 7 (rounded to 6), the projected health is the
[0,100]-clamped percentage (rounded to 2), and the health score is the
banker's rounding of the projected health, an integer in [0,100]. -/
theorem predict_ols_trend (minPoints : ℕ) (logs : List BatteryPredictor.HealthEntry)
    (now : ℤ) (months : ℚ) (e0 : BatteryPredictor.HealthEntry)
    (rest : List BatteryPredictor.HealthEntry)
    (hlen : minPoints ≤ (logs.filter BatteryPredictor.qualifies).length)
    (hes : logs.filter BatteryPredictor.qualifies = e0 :: rest) :
    (BatteryPredictor.olsDenom (BatteryPredictor.xsOf (e0 :: rest)) = 0 →
      BatteryPredictor.predict minPoints logs now months =
        some ⟨none, none, none, none, BatteryPredictor.PredictNote.fitFailed, logs⟩) ∧
    (BatteryPredictor.olsDenom (BatteryPredictor.xsOf (e0 :: rest)) ≠ 0 →
      BatteryPredictor.predict minPoints logs now months =
        some ⟨some (pyRoundTo 6 (BatteryPredictor.olsSlope
                (BatteryPredictor.xsOf (e0 :: rest)) (BatteryPredictor.ysOf (e0 :: rest)) * 7)),
          some (pyRoundTo 2 (BatteryPredictor.projHealth (e0 :: rest) now months)),
          some (pyRound (BatteryPredictor.projHealth (e0 :: rest) now months)),
          some (pyRoundTo 8 (BatteryPredictor.olsSlope
                (BatteryPredictor.xsOf (e0 :: rest)) (BatteryPredictor.ysOf (e0 :: rest)))),
          BatteryPredictor.PredictNote.computed
            (BatteryPredictor.olsSlope
              (BatteryPredictor.xsOf (e0 :: rest)) (BatteryPredictor.ysOf (e0 :: rest)))
            (BatteryPredictor.olsSlope
              (BatteryPredictor.xsOf (e0 :: rest)) (BatteryPredictor.ysOf (e0 :: rest)) * 7),
          logs⟩ ∧
      0 ≤ BatteryPredictor.projHealth (e0 :: rest) now months ∧
      BatteryPredictor.projHealth (e0 :: rest) now months ≤ 100 ∧
      0 ≤ pyRound (BatteryPredictor.projHealth (e0 :: rest) now months) ∧
      pyRound (BatteryPredictor.projHealth (e0 :: rest) now months) ≤ 100) := by
  have hne : ¬ ((e0 :: rest).length < minPoints) := by
    rw [hes] at hlen
    omega
  constructor
  · intro hd
    simp only [BatteryPredictor.predict]
    rw [hes, if_neg hne, if_neg (List.cons_ne_nil e0 rest),
      BatteryPredictor.xsOf_length, if_neg hne, if_pos hd]
  · intro hd
    have hmem : BatteryPredictor.lastEntryD (e0 :: rest) ∈ e0 :: rest := by
      rw [BatteryPredictor.lastEntryD, List.getLastD_cons]
      exact List.getLastD_mem_cons _ _
    have hmemf : BatteryPredictor.lastEntryD (e0 :: rest) ∈
        List.filter BatteryPredictor.qualifies logs := by
      rw [hes]
      exact hmem
    have hqual : BatteryPredictor.qualifies (BatteryPredictor.lastEntryD (e0 :: rest)) = true :=
      List.of_mem_filter hmemf
    have htruthy : BatteryPredictor.truthyZ
        (BatteryPredictor.designOf (e0 :: rest)) = true := by
      rw [BatteryPredictor.qualifies, Bool.and_eq_true] at hqual
      exact hqual.2
    have h0 : 0 ≤ BatteryPredictor.projHealth (e0 :: rest) now months :=
      le_max_left 0 _
    have h100 : BatteryPredictor.projHealth (e0 :: rest) now months ≤ 100 :=
      max_le (by norm_num) (min_le_left 100 _)
    refine ⟨?_, h0, h100, pyRound_nonneg h0, pyRound_le_of_le (by exact_mod_cast h100)⟩
    simp only [BatteryPredictor.predict]
    rw [hes, if_neg hne, if_neg (List.cons_ne_nil e0 rest),
      BatteryPredictor.xsOf_length, if_neg hne, if_neg hd, if_pos htruthy]

/-- Entries used by the C6 witness: three days of capacity readings. -/
def battSampleA : BatteryPredictor.HealthEntry :=
  BatteryPredictor.mkEntry 0 (some 50000) (some 48000) none none

/-- See `battSampleA`. -/
def battSampleB : BatteryPredictor.HealthEntry :=
  BatteryPredictor.mkEntry 1 (some 50000) (some 47000) none none

/-- See `battSampleA`. -/
def battSampleC : BatteryPredictor.HealthEntry :=
  BatteryPredictor.mkEntry 2 (some 50000) (some 46000) none none

/-- Witness for C6: on the three-day log of `battSampleA/B/C` the fit
denominator is nonzero and the projected health score is an integer in
[0,100]. -/
theorem predict_ols_trend_witness :
    0 ≤ pyRound (BatteryPredictor.projHealth [battSampleA, battSampleB, battSampleC] 10 6) ∧
    pyRound (BatteryPredictor.projHealth [battSampleA, battSampleB, battSampleC] 10 6) ≤ 100 := by
  have hqA : BatteryPredictor.qualifies battSampleA = true :=
    qualifies_mkEntry 0 50000 48000 none none (by norm_num) (by norm_num)
  have hqB : BatteryPredictor.qualifies battSampleB = true :=
    qualifies_mkEntry 1 50000 47000 none none (by norm_num) (by norm_num)
  have hqC : BatteryPredictor.qualifies battSampleC = true :=
    qualifies_mkEntry 2 50000 46000 none none (by norm_num) (by norm_num)
  have hes : ([battSampleA, battSampleB, battSampleC] :
      List BatteryPredictor.HealthEntry).filter BatteryPredictor.qualifies =
      battSampleA :: [battSampleB, battSampleC] := by
    simp [List.filter_cons, hqA, hqB, hqC]
  have hxs : BatteryPredictor.xsOf (battSampleA :: [battSampleB, battSampleC]) =
      [0, 1, 2] := by
    simp [BatteryPredictor.xsOf, battSampleA, battSampleB, battSampleC,
      BatteryPredictor.mkEntry]
  have hdenom : BatteryPredictor.olsDenom
      (BatteryPredictor.xsOf (battSampleA :: [battSampleB, battSampleC])) ≠ 0 := by
    rw [hxs, BatteryPredictor.olsDenom]
    norm_num
  have h := predict_ols_trend 3 [battSampleA, battSampleB, battSampleC] 10 6
    battSampleA [battSampleB, battSampleC] (by rw [hes]; norm_num) hes
  have h2 := h.2 hdenom
  exact ⟨h2.2.2.2.1, h2.2.2.2.2⟩

/-! ## Process stability scorer (`backend/analytics/stability_analyzer.py`)

`score_process` works on machine floats; its arithmetic is modelled over the
reals because of `math.sqrt` (all other embeddings in this file stay in ℚ).
A `none` result models the `ZeroDivisionError` raised on line 65 when
`cpu_mean + 0.1` is exactly zero; `some none` is the insufficient-data
result (score `None`); `some (some s)` is a computed score.  The diagnostic
`breakdown`/`notes` strings are presentation only and are not modelled — the
penalty definitions below are the values they would display. -/

noncomputable section

namespace StabilityAnalyzer

/-- One history sample (lines 22-33); the `ts` key is never read by the
scorer.  Missing keys default to 0 in the source, so fields are total. -/
structure PSample where
  cpu : ℝ
  mem : ℝ
  io_read : ℝ
  io_write : ℝ
  net_sent : ℝ
  net_recv : ℝ

/-- Line 61: `cpu_mean = sum(cpu_vals) / n`. -/
def cpuMean (h : List PSample) : ℝ :=
  (h.map (fun s => s.cpu)).sum / (h.length : ℝ)

/-- Line 62: population variance of the cpu values. -/
def cpuVar (h : List PSample) : ℝ :=
  (h.map (fun s => (s.cpu - cpuMean h) ^ 2)).sum / (h.length : ℝ)

/-- Line 63: `cpu_std = math.sqrt(cpu_var)`. -/
def cpuStd (h : List PSample) : ℝ := Real.sqrt (cpuVar h)

/-- Line 65: `cpu_instability = cpu_std / (cpu_mean + 0.1)`. -/
def cpuInstability (h : List PSample) : ℝ := cpuStd h / (cpuMean h + 1/10)

/-- Line 76: `cpu_penalty = min(1.0, cpu_instability / 1.0)` — clamped only
from above. -/
def cpuPenalty (h : List PSample) : ℝ := min 1 (cpuInstability h / 1)

/-- Line 68: `mem_slope = (mem_vals[-1] - mem_vals[0]) / max(1, n)`. -/
def memSlope (h : List PSample) : ℝ :=
  ((h.map (fun s => s.mem)).getLastD 0 - (h.map (fun s => s.mem)).headD 0) /
    max 1 (h.length : ℝ)

/-- Line 77: `mem_penalty = min(1.0, max(0.0, mem_slope / 1.0))` — the only
penalty clamped from both sides. -/
def memPenalty (h : List PSample) : ℝ := min 1 (max 0 (memSlope h / 1))

/-- Line 71: total IO volume in MB. -/
def ioTotalMB (h : List PSample) : ℝ :=
  ((h.map (fun s => s.io_read)).sum + (h.map (fun s => s.io_write)).sum) / (1024 * 1024)

/-- Line 78: `io_penalty = min(1.0, io_total_mb / 50.0)` — clamped only from
above. -/
def ioPenalty (h : List PSample) : ℝ := min 1 (ioTotalMB h / 50)

/-- Line 72: total network volume in MB. -/
def netTotalMB (h : List PSample) : ℝ :=
  ((h.map (fun s => s.net_sent)).sum + (h.map (fun s => s.net_recv)).sum) / (1024 * 1024)

/-- Line 79: `net_penalty = min(1.0, net_total_mb / 20.0)` — clamped only
from above. -/
def netPenalty (h : List PSample) : ℝ := min 1 (netTotalMB h / 20)

/-- Lines 82-87: the weighted combination of the four penalties. -/
def totalPenalty (h : List PSample) : ℝ :=
  0.5 * cpuPenalty h + 0.3 * memPenalty h + 0.1 * ioPenalty h + 0.1 * netPenalty h

/-- Lines 22-116: `score_process`.  `some none` is the under-3-samples
result; `none` models the `ZeroDivisionError` of line 65. -/
def scoreProcess (h : List PSample) : Option (Option ℤ) :=
  if h.length < 3 then some none
  else if cpuMean h + 1/10 = 0 then none
  else some (some (max 0 (min 100 (pyRound ((1 - totalPenalty h) * 100)))))

end StabilityAnalyzer

end

/-- The history used by the C5 counterexample: three samples whose only
nonzero field is a negative `net_sent` of -100 MiB on the first one. -/
noncomputable def negNetHistory : List StabilityAnalyzer.PSample :=
  [⟨0, 0, 0, 0, -104857600, 0⟩, ⟨0, 0, 0, 0, 0, 0⟩, ⟨0, 0, 0, 0, 0, 0⟩]

/-- The history on which `score_process` raises: all cpu values are exactly
-0.1, so `cpu_mean + 0.1` is zero and line 65 divides by zero. -/
noncomputable def zeroDivHistory : List StabilityAnalyzer.PSample :=
  [⟨-(1/10), 0, 0, 0, 0, 0⟩, ⟨-(1/10), 0, 0, 0, 0, 0⟩, ⟨-(1/10), 0, 0, 0, 0, 0⟩]

/-- C5: the claim that every penalty is clamped (to [0,1]) before the
weighted combination is false — the cpu, io and net penalties are clamped
only from above, so a negative input drives them below 0: on a three-sample
history with `net_sent = -100 MiB` the net penalty is -5.  Moreover the
scorer does not even return a score on every length-3 history: with all cpu
values exactly -0.1 the score computation divides by zero (modelled as
`none`). -/
theorem stability_penalties_not_clamped :
    3 ≤ negNetHistory.length ∧
    StabilityAnalyzer.netPenalty negNetHistory = -5 ∧
    ¬ (0 ≤ StabilityAnalyzer.netPenalty negNetHistory) ∧
    StabilityAnalyzer.scoreProcess zeroDivHistory = none := by
  have hnet : StabilityAnalyzer.netPenalty negNetHistory = -5 := by
    rw [StabilityAnalyzer.netPenalty, StabilityAnalyzer.netTotalMB, negNetHistory]
    norm_num
  have hmean : StabilityAnalyzer.cpuMean zeroDivHistory = -(1/10) := by
    rw [StabilityAnalyzer.cpuMean, zeroDivHistory]
    norm_num
  refine ⟨by rw [negNetHistory]; norm_num, hnet, by rw [hnet]; norm_num, ?_⟩
  rw [StabilityAnalyzer.scoreProcess, if_neg (by rw [zeroDivHistory]; norm_num),
    if_pos (by rw [hmean]; norm_num)]

/-- C5 (amended): for every history of length at least 3 on which the score
computation does not divide by zero (`cpu_mean + 0.1` nonzero; cpu readings
are nonnegative percentages in the program, so this always holds there),
`score_process` returns a score that is an integer in [0,100]: the range is
guaranteed by the final clamp of line 90, while of the four penalties only
the memory penalty is clamped into [0,1] — the cpu, io and net penalties are
clamped only from above. -/
theorem score_process_in_range (h : List StabilityAnalyzer.PSample)
    (hlen : 3 ≤ h.length) (hmean : StabilityAnalyzer.cpuMean h + 1/10 ≠ 0) :
    ∃ s : ℤ, StabilityAnalyzer.scoreProcess h = some (some s) ∧ 0 ≤ s ∧ s ≤ 100 ∧
      0 ≤ StabilityAnalyzer.memPenalty h ∧ StabilityAnalyzer.memPenalty h ≤ 1 ∧
      StabilityAnalyzer.cpuPenalty h ≤ 1 ∧ StabilityAnalyzer.ioPenalty h ≤ 1 ∧
      StabilityAnalyzer.netPenalty h ≤ 1 := by
  refine ⟨max 0 (min 100 (pyRound ((1 - StabilityAnalyzer.totalPenalty h) * 100))),
    ?_, le_max_left 0 _, max_le (by norm_num) (min_le_left 100 _),
    le_min (by norm_num) (le_max_left 0 _), min_le_left 1 _,
    min_le_left 1 _, min_le_left 1 _, min_le_left 1 _⟩
  rw [StabilityAnalyzer.scoreProcess, if_neg (by omega), if_neg hmean]

/-- The all-zero history used by the C5 witness and the C4 development. -/
noncomputable def zeroHistory3 : List StabilityAnalyzer.PSample :=
  [⟨0, 0, 0, 0, 0, 0⟩, ⟨0, 0, 0, 0, 0, 0⟩, ⟨0, 0, 0, 0, 0, 0⟩]

/-- Witness for C5 (amended) at the all-zero three-sample history. -/
theorem score_process_in_range_witness :
    ∃ s : ℤ, StabilityAnalyzer.scoreProcess zeroHistory3 = some (some s) ∧
      0 ≤ s ∧ s ≤ 100 ∧
      0 ≤ StabilityAnalyzer.memPenalty zeroHistory3 ∧
      StabilityAnalyzer.memPenalty zeroHistory3 ≤ 1 ∧
      StabilityAnalyzer.cpuPenalty zeroHistory3 ≤ 1 ∧
      StabilityAnalyzer.ioPenalty zeroHistory3 ≤ 1 ∧
      StabilityAnalyzer.netPenalty zeroHistory3 ≤ 1 := by
  refine score_process_in_range zeroHistory3 (by rw [zeroHistory3]; norm_num) ?_
  have hmean : StabilityAnalyzer.cpuMean zeroHistory3 = 0 := by
    rw [StabilityAnalyzer.cpuMean, zeroHistory3]
    norm_num
  rw [hmean]
  norm_num

/-! ## Controller stability-score listing (`main.py`, `get_stability_scores`)

Lines 253-272 of `main.py`.  The per-process history map is an
insertion-ordered association list; each entry's diagnostic `breakdown` is
presentation only and not modelled.  Line 267 sorts with
`key=lambda x: (x["score"] is None, x["score"])` and `reverse=True`: the
reverse flag also reverses the is-None flag, so entries with an absent score
come FIRST, then present scores descending. -/

namespace BackendController

/-- One element of the returned list (pid, name, score). -/
structure ScoreEntry where
  pid : ℤ
  name : String
  score : Option ℤ
deriving DecidableEq, Repr

/-- Lines 256-265: the loop body.  Empty histories are skipped (`continue`);
a raised `ZeroDivisionError` inside `score_process` aborts the loop and the
`except` clause returns the partially built, unsorted list — modelled by the
`false` flag. -/
noncomputable def buildScores :
    List ((ℤ × String) × List StabilityAnalyzer.PSample) → List ScoreEntry →
      List ScoreEntry × Bool
  | [], acc => (acc, true)
  | (k, hist) :: rest, acc =>
    if hist.isEmpty then buildScores rest acc
    else
      match StabilityAnalyzer.scoreProcess hist with
      | none => (acc, false)
      | some s => buildScores rest (acc ++ [⟨k.1, k.2, s⟩])

/-- The descending order actually produced by line 267's
`sort(key=(score is None, score), reverse=True)`. -/
def stabLEb (a b : ScoreEntry) : Bool :=
  match a.score, b.score with
  | none, _ => true
  | some _, none => false
  | some x, some y => y ≤ x

def stabLE (a b : ScoreEntry) : Prop := stabLEb a b = true

instance : DecidableRel stabLE := fun a b => by
  unfold stabLE
  infer_instance

instance : IsTotal ScoreEntry stabLE := by
  constructor
  intro a b
  unfold stabLE stabLEb
  rcases ha : a.score with _ | x
  · left
    rfl
  · rcases hb : b.score with _ | y
    · right
      rfl
    · rcases le_total y x with h | h
      · left
        exact decide_eq_true h
      · right
        exact decide_eq_true h

instance : IsTrans ScoreEntry stabLE := by
  constructor
  intro a b c hab hbc
  unfold stabLE stabLEb at hab hbc ⊢
  rcases ha : a.score with _ | x
  · rfl
  · rcases hc : c.score with _ | z
    · rcases hb : b.score with _ | y
      · rw [ha, hb] at hab
        exact absurd hab (by simp)
      · rw [hb, hc] at hbc
        exact absurd hbc (by simp)
    · rcases hb : b.score with _ | y
      · rw [ha, hb] at hab
        exact absurd hab (by simp)
      · rw [ha, hb] at hab
        rw [hb, hc] at hbc
        have h1 : y ≤ x := of_decide_eq_true hab
        have h2 : z ≤ y := of_decide_eq_true hbc
        exact decide_eq_true (le_trans h2 h1)

/-- Lines 253-272: `get_stability_scores` — build the entries, then sort
(unless an exception aborted the loop). -/
noncomputable def getStabilityScores
    (ph : List ((ℤ × String) × List StabilityAnalyzer.PSample)) : List ScoreEntry :=
  if (buildScores ph []).2 then List.insertionSort stabLE (buildScores ph []).1
  else (buildScores ph []).1

/-- The ordering the spec claims, written from the spec's words: every entry
with a present score precedes every entry with an absent one, and present
scores are descending. -/
def specLEb (a b : ScoreEntry) : Bool :=
  match a.score, b.score with
  | some x, some y => y ≤ x
  | some _, none => true
  | none, none => true
  | none, some _ => false

/-- The list order claimed by the spec (nulls last). -/
def specOrdered (l : List ScoreEntry) : Prop :=
  List.Sorted (fun a b => specLEb a b = true) l

end BackendController

theorem cpuMean_zeroHistory3 : StabilityAnalyzer.cpuMean zeroHistory3 = 0 := by
  rw [StabilityAnalyzer.cpuMean, zeroHistory3]
  norm_num

theorem scoreProcess_zeroHistory3 :
    StabilityAnalyzer.scoreProcess zeroHistory3 = some (some 100) := by
  have hvar : StabilityAnalyzer.cpuVar zeroHistory3 = 0 := by
    rw [StabilityAnalyzer.cpuVar, cpuMean_zeroHistory3, zeroHistory3]
    norm_num
  have hcpuP : StabilityAnalyzer.cpuPenalty zeroHistory3 = 0 := by
    rw [StabilityAnalyzer.cpuPenalty, StabilityAnalyzer.cpuInstability,
      StabilityAnalyzer.cpuStd, hvar, Real.sqrt_zero, cpuMean_zeroHistory3]
    norm_num
  have hmemP : StabilityAnalyzer.memPenalty zeroHistory3 = 0 := by
    rw [StabilityAnalyzer.memPenalty, StabilityAnalyzer.memSlope, zeroHistory3]
    norm_num
  have hioP : StabilityAnalyzer.ioPenalty zeroHistory3 = 0 := by
    rw [StabilityAnalyzer.ioPenalty, StabilityAnalyzer.ioTotalMB, zeroHistory3]
    norm_num
  have hnetP : StabilityAnalyzer.netPenalty zeroHistory3 = 0 := by
    rw [StabilityAnalyzer.netPenalty, StabilityAnalyzer.netTotalMB, zeroHistory3]
    norm_num
  have htot : StabilityAnalyzer.totalPenalty zeroHistory3 = 0 := by
    rw [StabilityAnalyzer.totalPenalty, hcpuP, hmemP, hioP, hnetP]
    norm_num
  rw [StabilityAnalyzer.scoreProcess, if_neg (by rw [zeroHistory3]; norm_num),
    if_neg (by rw [cpuMean_zeroHistory3]; norm_num), htot]
  have h100 : ((1 : ℝ) - 0) * 100 = ((100 : ℤ) : ℝ) := by norm_num
  rw [h100, pyRound_intCast]
  norm_num

theorem scoreProcess_single_zero :
    StabilityAnalyzer.scoreProcess [(⟨0, 0, 0, 0, 0, 0⟩ : StabilityAnalyzer.PSample)] =
      some none := by
  rw [StabilityAnalyzer.scoreProcess, if_pos (by norm_num)]

/-- The process-history map used by the C4 counterexample and witness: a
one-sample history (score `None`) inserted before a three-sample all-zero
history (score 100). -/
noncomputable def procHistExample :
    List ((ℤ × String) × List StabilityAnalyzer.PSample) :=
  [((1, "alpha"), [⟨0, 0, 0, 0, 0, 0⟩]), ((2, "beta"), zeroHistory3)]

theorem buildScores_procHistExample :
    BackendController.buildScores procHistExample [] =
      ([⟨1, "alpha", none⟩, ⟨2, "beta", some 100⟩], true) := by
  have hze : zeroHistory3.isEmpty = false := by
    rw [zeroHistory3]
    rfl
  rw [procHistExample]
  simp only [BackendController.buildScores, List.isEmpty_cons, hze,
    scoreProcess_single_zero, scoreProcess_zeroHistory3, Bool.false_eq_true,
    if_false, List.nil_append]
  rfl

/-- C4: the claim that present-score entries precede absent-score entries is
false on the code.  The sort key `(score is None, score)` with `reverse=True`
reverses the None flag too, so an absent score sorts FIRST: on a map holding
a one-sample process (score `None`, inserted first) and a three-sample
process (score 100), the returned list is `[None-entry, 100-entry]`,
violating the claimed nulls-last order. -/
theorem stability_scores_nulls_first :
    BackendController.getStabilityScores procHistExample =
      [⟨1, "alpha", none⟩, ⟨2, "beta", some 100⟩] ∧
    ¬ BackendController.specOrdered
      (BackendController.getStabilityScores procHistExample) := by
  have hle : BackendController.stabLE ⟨1, "alpha", none⟩ ⟨2, "beta", some 100⟩ := by
    rw [BackendController.stabLE]
    rfl
  have hout : BackendController.getStabilityScores procHistExample =
      [⟨1, "alpha", none⟩, ⟨2, "beta", some 100⟩] := by
    rw [BackendController.getStabilityScores, buildScores_procHistExample]
    rw [if_pos rfl]
    simp [List.insertionSort, List.orderedInsert, hle]
  refine ⟨hout, ?_⟩
  rw [hout, BackendController.specOrdered]
  intro h
  have h1 := (List.sorted_cons.mp h).1 ⟨2, "beta", some 100⟩ (by simp)
  simp [BackendController.specLEb] at h1

theorem scoreProcess_ne_none (hist : List StabilityAnalyzer.PSample)
    (hc : ∀ s ∈ hist, 0 ≤ s.cpu) : StabilityAnalyzer.scoreProcess hist ≠ none := by
  rw [StabilityAnalyzer.scoreProcess]
  by_cases hl : hist.length < 3
  · rw [if_pos hl]
    simp
  · have hsum : 0 ≤ (hist.map (fun s => s.cpu)).sum := by
      apply List.sum_nonneg
      intro x hx
      rcases List.mem_map.mp hx with ⟨s, hs, rfl⟩
      exact hc s hs
    have hmean : 0 ≤ StabilityAnalyzer.cpuMean hist := by
      rw [StabilityAnalyzer.cpuMean]
      exact div_nonneg hsum (by positivity)
    have hne : StabilityAnalyzer.cpuMean hist + 1/10 ≠ 0 := by
      intro h0
      linarith
    rw [if_neg hl, if_neg hne]
    simp

theorem buildScores_ok :
    ∀ (ph : List ((ℤ × String) × List StabilityAnalyzer.PSample))
      (acc : List BackendController.ScoreEntry),
      (∀ kh ∈ ph, ∀ s ∈ kh.2, 0 ≤ s.cpu) →
      (BackendController.buildScores ph acc).2 = true
  | [], _, _ => rfl
  | (k, hist) :: rest, acc, h => by
    simp only [BackendController.buildScores]
    split
    · exact buildScores_ok rest acc (fun kh hkh => h kh (List.mem_cons_of_mem _ hkh))
    · cases hsp : StabilityAnalyzer.scoreProcess hist with
      | none =>
        exact absurd hsp (scoreProcess_ne_none hist (h (k, hist) (List.mem_cons_self _ _)))
      | some s =>
        exact buildScores_ok rest (acc ++ [⟨k.1, k.2, s⟩])
          (fun kh hkh => h kh (List.mem_cons_of_mem _ hkh))

/-- C4 (amended): on any process-history map whose samples carry nonnegative
cpu values (always true in the program — they are psutil percentages, and
this rules out the scorer's division-by-zero), the returned list is ordered
with the absent-score entries FIRST and the present scores descending. -/
theorem stability_scores_absent_first_desc
    (ph : List ((ℤ × String) × List StabilityAnalyzer.PSample))
    (hcpu : ∀ kh ∈ ph, ∀ s ∈ kh.2, 0 ≤ s.cpu) :
    List.Pairwise (fun a b : BackendController.ScoreEntry =>
      a.score = none ∨ ∃ x y, a.score = some x ∧ b.score = some y ∧ y ≤ x)
      (BackendController.getStabilityScores ph) := by
  have hok := buildScores_ok ph [] hcpu
  rw [BackendController.getStabilityScores, if_pos hok]
  have hs := List.sorted_insertionSort BackendController.stabLE
    (BackendController.buildScores ph []).1
  refine List.Pairwise.imp ?_ hs
  intro a b hab
  unfold BackendController.stabLE BackendController.stabLEb at hab
  rcases ha : a.score with _ | x
  · exact Or.inl rfl
  · rcases hb2 : b.score with _ | y
    · rw [ha, hb2] at hab
      exact absurd hab (by simp)
    · rw [ha, hb2] at hab
      exact Or.inr ⟨x, y, rfl, rfl, of_decide_eq_true hab⟩

/-- Witness for C4 (amended) on the concrete two-process map. -/
theorem stability_scores_absent_first_desc_witness :
    List.Pairwise (fun a b : BackendController.ScoreEntry =>
      a.score = none ∨ ∃ x y, a.score = some x ∧ b.score = some y ∧ y ≤ x)
      (BackendController.getStabilityScores procHistExample) := by
  refine stability_scores_absent_first_desc procHistExample ?_
  intro kh hkh s hs
  rw [procHistExample] at hkh
  rcases List.mem_cons.mp hkh with rfl | hkh2
  · rcases List.mem_singleton.mp hs with rfl
    norm_num
  · rcases List.mem_singleton.mp hkh2 with rfl
    rw [zeroHistory3] at hs
    fin_cases hs <;> norm_num
